import Mathlib

/-!
Shallow embedding of the VeritasAI real-time tweet streaming / clustering
subsystem, as documented in the repository (Pathway framework, Nitter
scraping, stream management and the clustering algorithm).  Machine floats
are modelled as rationals; instants as naturals.

The library marks the rational arithmetic operations irreducible, which
blocks `decide` on concrete runs of the model; re-marking them
semireducible only affects elaboration-time unfolding (the kernel checks
are unchanged).
-/

set_option allowUnsafeReducibility true in
attribute [semireducible] Rat.add Rat.sub Rat.mul Rat.div Rat.inv Rat.neg Rat.blt

namespace Veritas

/-- A raw record produced by the Record Source (the Nitter scraper), after
the fields of `TweetSchema`: id, text, username, timestamp, likes,
retweets, replies.  The timestamp is modelled as an abstract totally
ordered instant (`Nat`). -/
structure Tweet where
  tweet_id : String
  text : String
  username : String
  timestamp : Nat
  likes : Nat
  retweets : Nat
  replies : Nat
deriving DecidableEq, Inhabited

/-- Popularity score of a record, after `compute_popularity`:
`likes + 2*retweets + 0.5*replies`. -/
def compute_popularity (t : Tweet) : ℚ :=
  (t.likes : ℚ) + 2 * (t.retweets : ℚ) + (1 / 2) * (t.replies : ℚ)

/-- A record enriched with the inferred location and topic strings and the
geocoded coordinates. -/
structure EnrichedTweet where
  tweet : Tweet
  location : String
  topic : String
  lat : ℚ
  lon : ℚ
deriving DecidableEq, Inhabited

/-- Popularity of an enriched record (popularity of its underlying tweet). -/
def popE (e : EnrichedTweet) : ℚ := compute_popularity e.tweet

/-- Lower-casing of a string, after Python's `str.lower()`, applied
character by character (the standard library's `String.toLower` computes
the same characters but does not reduce in the kernel). -/
def lowerStr (s : String) : String := ⟨s.data.map Char.toLower⟩

/-- Trimming of surrounding whitespace, after Python's `str.strip()`. -/
def trimStr (s : String) : String :=
  ⟨((s.data.dropWhile Char.isWhitespace).reverse.dropWhile
      Char.isWhitespace).reverse⟩

/-- The composite cluster key, after
`cluster_key = f"{topic.lower()}_{location.lower()}"`.
Note that the code lower-cases but does not trim. -/
def cluster_key (topic location : String) : String :=
  lowerStr topic ++ "_" ++ lowerStr location

/-- The normalisation the specification describes for cluster keys
("`normalize` lower-cases and trims"); kept separate from `cluster_key`
so the two can be compared. -/
def specNormalize (s : String) : String := lowerStr (trimStr s)

/-- The cluster key as the specification words it:
`normalize(topic) + "_" + normalize(location)` with trimming. -/
def specClusterKey (topic location : String) : String :=
  specNormalize topic ++ "_" ++ specNormalize location

/-- Modelled from the spec: stands for
`int(hashlib.md5(cluster_key.encode()).hexdigest()[:8], 16)` — the first
8 hex digits of the MD5 of the key, a fixed deterministic function of the
key string into `[0, 2^32)`.  The exact hash values are irrelevant to
every property proved here; only that it is a total function of the key
alone matters, so a simple deterministic string hash stands in for MD5. -/
def hashValue (key : String) : Nat :=
  key.data.foldl (fun h c => (h * 131 + c.toNat) % 4294967296) 5381

/-- Latitude display offset, after
`offset_lat = (hash_value % 2000 - 1000) / 50000.0`. -/
def offset_lat (h : Nat) : ℚ := (((h % 2000 : Nat) : ℚ) - 1000) / 50000

/-- Longitude display offset, after
`offset_lon = ((hash_value // 2000) % 2000 - 1000) / 50000.0`. -/
def offset_lon (h : Nat) : ℚ := (((h / 2000 % 2000 : Nat) : ℚ) - 1000) / 50000

/-- Member ordering of a cluster's `top_tweets` list: popularity
descending, ties broken by earlier timestamp first.  The sort order is
stated in the documentation ("sorted by popularity"); the tie-break is
modelled from the spec ("stable tie-break: earlier timestamp first"). -/
def memberLE (a b : EnrichedTweet) : Prop :=
  popE b < popE a ∨ (popE a = popE b ∧ a.tweet.timestamp ≤ b.tweet.timestamp)

instance : DecidableRel memberLE := fun a b => by
  unfold memberLE; infer_instance

instance : IsTotal EnrichedTweet memberLE where
  total a b := by
    unfold memberLE
    rcases lt_trichotomy (popE a) (popE b) with h | h | h
    · exact Or.inr (Or.inl h)
    · rcases Nat.le_total a.tweet.timestamp b.tweet.timestamp with ht | ht
      · exact Or.inl (Or.inr ⟨h, ht⟩)
      · exact Or.inr (Or.inr ⟨h.symm, ht⟩)
    · exact Or.inl (Or.inl h)

instance : IsTrans EnrichedTweet memberLE where
  trans a b c hab hbc := by
    unfold memberLE at *
    rcases hab with h1 | ⟨h1, t1⟩ <;> rcases hbc with h2 | ⟨h2, t2⟩
    · exact Or.inl (h2.trans h1)
    · exact Or.inl (h2 ▸ h1)
    · exact Or.inl (h1 ▸ h2)
    · exact Or.inr ⟨h1.trans h2, t1.trans t2⟩

/-- The cluster aggregate, after the documented cluster data structure:
cluster id, centroid, base coordinates (running mean before the display
offset), headline, member list, popularity sum, last-seen timestamp,
count, location and topic. -/
structure Cluster where
  cluster_id : String
  base_lat : ℚ
  base_lon : ℚ
  centroid_lat : ℚ
  centroid_lon : ℚ
  headline : EnrichedTweet
  top_tweets : List EnrichedTweet
  popularity_score : ℚ
  last_seen : Nat
  tweet_count : Nat
  location : String
  topic : String
deriving DecidableEq, Inhabited

/-- Creation of a new cluster on the first enriched record for a key:
`cluster_id = f"{stream_id}_{len(clusters)}"`, count 1, base = the
record's coordinates, centroid = base plus the key-derived offset. -/
def newCluster (stream_id : String) (ordinal : Nat) (key : String)
    (e : EnrichedTweet) : Cluster :=
  { cluster_id := stream_id ++ "_" ++ toString ordinal
    base_lat := e.lat
    base_lon := e.lon
    centroid_lat := e.lat + offset_lat (hashValue key)
    centroid_lon := e.lon + offset_lon (hashValue key)
    headline := e
    top_tweets := [e]
    popularity_score := popE e
    last_seen := e.tweet.timestamp
    tweet_count := 1
    location := e.location
    topic := e.topic }

/-- The post-update running mean of member latitudes, by the online
formula `base' = base + (recordLat - base) / count'` with `count'` the
post-increment count. -/
def nextBaseLat (e : EnrichedTweet) (c : Cluster) : ℚ :=
  c.base_lat + (e.lat - c.base_lat) / ((c.tweet_count + 1 : Nat) : ℚ)

/-- The post-update running mean of member longitudes. -/
def nextBaseLon (e : EnrichedTweet) (c : Cluster) : ℚ :=
  c.base_lon + (e.lon - c.base_lon) / ((c.tweet_count + 1 : Nat) : ℚ)

/-- The post-update member list: the record inserted into the list kept
sorted by popularity descending (ties: earlier timestamp first). -/
def nextMembers (e : EnrichedTweet) (c : Cluster) : List EnrichedTweet :=
  List.orderedInsert memberLE e c.top_tweets

/-- Folding one enriched record into an existing cluster, after the
documented update steps: increment the count, add the popularity score,
update the centroid by the online running-mean formula (modelled from
the spec, which fixes the documentation's "weighted average of
coordinates" to this formula), re-apply the key-derived offset, insert
into the sorted member list, set the headline to the top member, update
last-seen.  Note the member list is NOT truncated: the documentation
states all tweets are stored in the cluster. -/
def updateCluster (key : String) (e : EnrichedTweet) (c : Cluster) : Cluster :=
  { c with
    base_lat := nextBaseLat e c
    base_lon := nextBaseLon e c
    centroid_lat := nextBaseLat e c + offset_lat (hashValue key)
    centroid_lon := nextBaseLon e c + offset_lon (hashValue key)
    headline := (nextMembers e c).headI
    top_tweets := nextMembers e c
    popularity_score := c.popularity_score + popE e
    last_seen := max c.last_seen e.tweet.timestamp
    tweet_count := c.tweet_count + 1 }

/-- Look up the cluster stored under a key in the stream's cluster table
(an association list standing for the in-memory `Dict`). -/
def lookupCluster (key : String) (cs : List (String × Cluster)) :
    Option Cluster :=
  (cs.find? (fun p => p.1 == key)).map (·.2)

/-- Fold one enriched record into the cluster table: update the cluster
under its key when present, otherwise create a new one whose ordinal is
the number of clusters created so far. -/
def foldCluster (stream_id : String) (cs : List (String × Cluster))
    (e : EnrichedTweet) : List (String × Cluster) :=
  match lookupCluster (cluster_key e.topic e.location) cs with
  | some _ =>
    cs.map (fun p =>
      if p.1 == cluster_key e.topic e.location
      then (p.1, updateCluster (cluster_key e.topic e.location) e p.2)
      else p)
  | none =>
    cs ++ [(cluster_key e.topic e.location,
      newCluster stream_id cs.length (cluster_key e.topic e.location) e)]

/-- The enrichment collaborators: `extract_location_llm`,
`extract_topic_llm` and the cached `geocode_location`.  `none` models a
call that fails, times out or returns empty/unparseable output (the
geocoder's documented `None`). -/
structure EnrichEnv where
  extractLocation : String → Option String
  extractTopic : String → Option String
  geocode : String → Option (ℚ × ℚ)

/-- Per-stream state, after `TweetStream`: stream id, the `seen_ids`
deduplication set (modelled as a list), the in-memory cluster table, and
the running flag. -/
structure StreamState where
  stream_id : String
  seen_ids : List String
  clusters : List (String × Cluster)
  running : Bool
deriving DecidableEq

/-- A fresh stream as created by `StreamManager.create_stream`. -/
def initStream (sid : String) : StreamState :=
  { stream_id := sid, seen_ids := [], clusters := [], running := true }

/-- The enrichment pipeline for a single record: extract location, then
topic, then geocode the location.  Returns `none` when any of the three
calls fails (which drops the record from clustering). -/
def enrich (env : EnrichEnv) (t : Tweet) : Option EnrichedTweet :=
  (env.extractLocation t.text).bind fun loc =>
    (env.extractTopic t.text).bind fun top =>
      (env.geocode loc).map fun q =>
        { tweet := t, location := loc, topic := top, lat := q.1, lon := q.2 }

/-- Processing of one raw record pulled by the source loop: the scraper
skips ids already in `seen_ids` and otherwise marks the id seen before
yielding; the stream then enriches the record and folds it into the
cluster table.  A record whose enrichment returns `none` is dropped from
clustering but stays marked seen (modelled from the spec, which fixes
the drop path the documentation elides). -/
def process_tweet (env : EnrichEnv) (s : StreamState) (t : Tweet) :
    StreamState :=
  if t.tweet_id ∈ s.seen_ids then s
  else
    let s' := { s with seen_ids := t.tweet_id :: s.seen_ids }
    match enrich env t with
    | some e => { s' with clusters := foldCluster s.stream_id s'.clusters e }
    | none => s'

/-- Running the ingestion loop over a finite portion of the source's
record sequence. -/
def runStream (env : EnrichEnv) (s : StreamState) (ts : List Tweet) :
    StreamState :=
  ts.foldl (process_tweet env) s

/-! ### Subscriber event queue

`StreamManager.create_stream` allocates one `queue.Queue()` — a
thread-safe FIFO queue constructed with no `maxsize` — per stream, and
the stream's cluster callback puts every emitted cluster snapshot on it;
the SSE generator takes from the front. -/

/-- A cluster change event as placed on the stream's queue: the cluster
id and a sequence number standing for the snapshot payload. -/
structure ClusterEvent where
  clusterId : String
  seq : Nat
deriving DecidableEq

/-- Enqueue on the stream's event queue, after `queue.Queue.put`: append
at the tail.  The queue is created with no capacity bound and nothing is
ever discarded. -/
def queuePut (q : List ClusterEvent) (e : ClusterEvent) :
    List ClusterEvent :=
  q ++ [e]

/-- Enqueue a whole burst of events in order. -/
def queuePutAll (q : List ClusterEvent) (es : List ClusterEvent) :
    List ClusterEvent :=
  es.foldl queuePut q

/-! ### Rate limiter

Modelled from the spec: the geocoding rate limiter is described in the
documentation only by its budget ("1.1 seconds between requests"); the
gate itself is modelled from the spec's wording — acquisition blocks the
caller until at least `minInterval` has elapsed since the previous
acquisition, tracked by a single "next eligible time" counter. -/

/-- Modelled from the spec: one acquisition of the process-wide geocode
gate.  Given the gate's next-eligible time and the caller's request
time, the call is issued at the later of the two, and the gate advances
to `issue + minInterval`.  Returns `(issueTime, nextEligible')`. -/
def rlAcquire (minInterval nextEligible req : ℚ) : ℚ × ℚ :=
  let issue := max req nextEligible
  (issue, issue + minInterval)

/-- Modelled from the spec: the sequence of issue times produced when a
sequence of geocode requests (given by their request times, in the order
the gate serialises them) all pass through the gate. -/
def issueTimes (minInterval : ℚ) : ℚ → List ℚ → List ℚ
  | _, [] => []
  | ne, r :: rs =>
    let p := rlAcquire minInterval ne r
    p.1 :: issueTimes minInterval p.2 rs

/-! ### SSE endpoint -/

/-- An event on a subscriber's SSE connection, after the documented
response format: a `connected` event carrying the stream id, or a
`cluster_update` event carrying the stream id and a cluster snapshot. -/
inductive SSEEvent where
  | connected (stream_id : String)
  | cluster_update (stream_id : String) (event : ClusterEvent)
deriving DecidableEq

/-- The event sequence produced by the `stream_clusters` generator for
one subscriber connection: it first yields the `connected` event, then
yields one `cluster_update` per event taken from the stream's queue. -/
def sseEvents (stream_id : String) (queued : List ClusterEvent) :
    List SSEEvent :=
  SSEEvent.connected stream_id ::
    queued.map (fun e => SSEEvent.cluster_update stream_id e)

/-! ### Concrete fixtures

Concrete environments and record sequences used to evaluate the model on
closed inputs (the spec's example scenarios and their variations). -/

/-- An enrichment environment that infers location "mumbai" and topic
"blast" for every text and geocodes everything to (19, 72). -/
def wEnv : EnrichEnv :=
  { extractLocation := fun _ => some "mumbai"
    extractTopic := fun _ => some "blast"
    geocode := fun _ => some (19, 72) }

/-- First example record: likes 10, retweets 2, replies 1. -/
def wT1 : Tweet :=
  { tweet_id := "a", text := "ta", username := "u1", timestamp := 1,
    likes := 10, retweets := 2, replies := 1 }

/-- Second example record: likes 5, retweets 0, replies 0. -/
def wT2 : Tweet :=
  { tweet_id := "b", text := "tb", username := "u2", timestamp := 2,
    likes := 5, retweets := 0, replies := 0 }

/-- The state after ingesting the two example records. -/
def wState : StreamState := runStream wEnv (initStream "s") [wT1, wT2]

/-- The single cluster entry of `wState`. -/
def wKC : String × Cluster := wState.clusters.headI

/-- The state after ingesting the example records in the other order into
a second stream. -/
def wState2 : StreamState := runStream wEnv (initStream "s2") [wT2, wT1]

/-- The single cluster entry of `wState2`. -/
def wKC2 : String × Cluster := wState2.clusters.headI

/-- The first example record as enriched by `wEnv`. -/
def wE1 : EnrichedTweet :=
  { tweet := wT1, location := "mumbai", topic := "blast", lat := 19, lon := 72 }

/-- The second example record as enriched by `wEnv`. -/
def wE2 : EnrichedTweet :=
  { tweet := wT2, location := "mumbai", topic := "blast", lat := 19, lon := 72 }

/-- An environment whose location inference returns a string with a
leading space for one text: the enrichment collaborators may hand the
core any location string. -/
def c2Env : EnrichEnv :=
  { extractLocation := fun s => if s = "tb" then some " mumbai" else some "mumbai"
    extractTopic := fun _ => some "blast"
    geocode := fun _ => some (19, 72) }

/-- A family of distinct records with equal popularity and increasing
timestamps. -/
def mkT (i : Nat) : Tweet :=
  { tweet_id := toString i, text := "ta", username := "u", timestamp := i,
    likes := 1, retweets := 0, replies := 0 }

/-- 65 queued events for one cluster id, in emission order. -/
def c7Events : List ClusterEvent :=
  (List.range 65).map (fun i => { clusterId := "c", seq := i })

/-- An environment whose location inference fails on every text. -/
def c8Env : EnrichEnv :=
  { extractLocation := fun _ => none
    extractTopic := fun _ => some "blast"
    geocode := fun _ => some (19, 72) }

/-! ### Invariants of the cluster aggregator -/

/-- The ids of a cluster's member records, in member order. -/
def memberIds (c : Cluster) : List String :=
  c.top_tweets.map (fun e => e.tweet.tweet_id)

/-- The per-cluster invariant maintained by the fold, relative to the
stream's seen-id set and the key the cluster is stored under. -/
structure ClusterInv (seen : List String) (k : String) (c : Cluster) :
    Prop where
  count_eq : c.tweet_count = c.top_tweets.length
  ids_nodup : (memberIds c).Nodup
  ids_seen : ∀ e ∈ c.top_tweets, e.tweet.tweet_id ∈ seen
  pop_eq : c.popularity_score = (c.top_tweets.map popE).sum
  lat_eq : c.base_lat * (c.tweet_count : ℚ)
      = (c.top_tweets.map (fun e => e.lat)).sum
  lon_eq : c.base_lon * (c.tweet_count : ℚ)
      = (c.top_tweets.map (fun e => e.lon)).sum
  cen_lat : c.centroid_lat = c.base_lat + offset_lat (hashValue k)
  cen_lon : c.centroid_lon = c.base_lon + offset_lon (hashValue k)
  keys_eq : ∀ e ∈ c.top_tweets, cluster_key e.topic e.location = k
  sorted : c.top_tweets.Sorted memberLE
  nonempty : c.top_tweets ≠ []
  headline_eq : c.headline = c.top_tweets.headI

/-- The per-stream invariant: cluster keys are unique in the table and
every stored cluster satisfies its cluster invariant. -/
structure StateInv (s : StreamState) : Prop where
  keys_nodup : (s.clusters.map Prod.fst).Nodup
  cluster_inv : ∀ p ∈ s.clusters, ClusterInv s.seen_ids p.1 p.2

theorem ClusterInv.mono {seen seen' : List String}
    (hsub : ∀ x ∈ seen, x ∈ seen') {k : String} {c : Cluster}
    (h : ClusterInv seen k c) : ClusterInv seen' k c :=
  { h with ids_seen := fun e he => hsub _ (h.ids_seen e he) }

theorem newCluster_inv {seen : List String} (sid : String) (ord : Nat)
    (e : EnrichedTweet) (hseen : e.tweet.tweet_id ∈ seen) :
    ClusterInv seen (cluster_key e.topic e.location)
      (newCluster sid ord (cluster_key e.topic e.location) e) where
  count_eq := rfl
  ids_nodup := by simp [memberIds, newCluster]
  ids_seen := by
    intro r hr
    simp only [newCluster, List.mem_singleton] at hr
    subst hr; exact hseen
  pop_eq := by simp [newCluster]
  lat_eq := by simp [newCluster]
  lon_eq := by simp [newCluster]
  cen_lat := rfl
  cen_lon := rfl
  keys_eq := by
    intro r hr
    simp only [newCluster, List.mem_singleton] at hr
    subst hr; rfl
  sorted := by
    simp only [newCluster]
    exact List.sorted_singleton e
  nonempty := by simp [newCluster]
  headline_eq := rfl

theorem updateCluster_inv {seen : List String} {k : String} {c : Cluster}
    (e : EnrichedTweet) (hc : ClusterInv seen k c)
    (hkey : cluster_key e.topic e.location = k)
    (hfresh : e.tweet.tweet_id ∉ seen) :
    ClusterInv (e.tweet.tweet_id :: seen) k (updateCluster k e c) := by
  have hperm : List.Perm (nextMembers e c) (e :: c.top_tweets) :=
    List.perm_orderedInsert memberLE e c.top_tweets
  have hn : ((c.tweet_count + 1 : Nat) : ℚ) ≠ 0 := by
    exact_mod_cast (Nat.succ_ne_zero c.tweet_count)
  refine
    { count_eq := ?_, ids_nodup := ?_, ids_seen := ?_, pop_eq := ?_,
      lat_eq := ?_, lon_eq := ?_, cen_lat := rfl, cen_lon := rfl,
      keys_eq := ?_, sorted := ?_, nonempty := ?_, headline_eq := rfl }
  · show c.tweet_count + 1 = (nextMembers e c).length
    rw [hperm.length_eq, List.length_cons, hc.count_eq]
  · show ((nextMembers e c).map (fun r => r.tweet.tweet_id)).Nodup
    rw [(hperm.map (fun r => r.tweet.tweet_id)).nodup_iff]
    refine List.Nodup.cons ?_ hc.ids_nodup
    intro hmem
    rcases List.mem_map.mp hmem with ⟨r, hr, hid⟩
    have hid' : r.tweet.tweet_id = e.tweet.tweet_id := hid
    exact hfresh (hid' ▸ hc.ids_seen r hr)
  · intro r hr
    rcases (List.mem_orderedInsert memberLE).mp hr with h | h
    · subst h; exact List.mem_cons_self _ _
    · exact List.mem_cons_of_mem _ (hc.ids_seen r h)
  · show c.popularity_score + popE e = ((nextMembers e c).map popE).sum
    rw [(hperm.map popE).sum_eq, List.map_cons, List.sum_cons, hc.pop_eq]
    ring
  · show nextBaseLat e c * ((c.tweet_count + 1 : Nat) : ℚ)
      = ((nextMembers e c).map (fun r => r.lat)).sum
    rw [(hperm.map (fun r => r.lat)).sum_eq, List.map_cons, List.sum_cons,
      ← hc.lat_eq, nextBaseLat]
    field_simp
    ring
  · show nextBaseLon e c * ((c.tweet_count + 1 : Nat) : ℚ)
      = ((nextMembers e c).map (fun r => r.lon)).sum
    rw [(hperm.map (fun r => r.lon)).sum_eq, List.map_cons, List.sum_cons,
      ← hc.lon_eq, nextBaseLon]
    field_simp
    ring
  · intro r hr
    rcases (List.mem_orderedInsert memberLE).mp hr with h | h
    · subst h; exact hkey
    · exact hc.keys_eq r h
  · exact hc.sorted.orderedInsert e c.top_tweets
  · show nextMembers e c ≠ []
    have : 0 < (nextMembers e c).length := by
      rw [hperm.length_eq]; exact Nat.succ_pos _
    exact List.length_pos.mp this

theorem lookupCluster_none {key : String} {cs : List (String × Cluster)}
    (h : lookupCluster key cs = none) : key ∉ cs.map Prod.fst := by
  intro hmem
  rcases List.mem_map.mp hmem with ⟨p, hp, hfst⟩
  rw [lookupCluster, Option.map_eq_none'] at h
  have := List.find?_eq_none.mp h p hp
  simp [hfst] at this

theorem lookupCluster_some {key : String} {cs : List (String × Cluster)}
    {c : Cluster} (h : lookupCluster key cs = some c) : (key, c) ∈ cs := by
  rw [lookupCluster] at h
  rcases Option.map_eq_some'.mp h with ⟨p, hp, hc⟩
  have hmem := List.mem_of_find?_eq_some hp
  have hkey : p.1 = key := by
    have := List.find?_some hp
    simpa using this
  have : p = (key, c) := by
    cases p; simp_all
  exact this ▸ hmem

theorem update_map_fst (key : String) (u : Cluster → Cluster)
    (cs : List (String × Cluster)) :
    ((cs.map (fun p => if p.1 == key then (p.1, u p.2) else p)).map
      Prod.fst) = cs.map Prod.fst := by
  induction cs with
  | nil => rfl
  | cons p ps ih =>
    simp only [List.map_cons, ih, List.cons.injEq, and_true]
    by_cases h : p.1 == key
    · rw [if_pos h]
    · rw [if_neg h]

theorem enrich_tweet_eq {env : EnrichEnv} {t : Tweet} {e : EnrichedTweet}
    (h : enrich env t = some e) : e.tweet = t := by
  unfold enrich at h
  rcases Option.bind_eq_some.mp h with ⟨loc, hl, h2⟩
  rcases Option.bind_eq_some.mp h2 with ⟨top, ht, h3⟩
  rcases Option.map_eq_some'.mp h3 with ⟨q, hg, he⟩
  rw [← he]

theorem foldCluster_inv {seen : List String} {cs : List (String × Cluster)}
    (sid : String) (e : EnrichedTweet)
    (hkeys : (cs.map Prod.fst).Nodup)
    (hinv : ∀ p ∈ cs, ClusterInv seen p.1 p.2)
    (hfresh : e.tweet.tweet_id ∉ seen) :
    ((foldCluster sid cs e).map Prod.fst).Nodup ∧
      ∀ p ∈ foldCluster sid cs e,
        ClusterInv (e.tweet.tweet_id :: seen) p.1 p.2 := by
  cases hlook : lookupCluster (cluster_key e.topic e.location) cs with
  | some c =>
    have hfold : foldCluster sid cs e =
        cs.map (fun p =>
          if p.1 == cluster_key e.topic e.location
          then (p.1, updateCluster (cluster_key e.topic e.location) e p.2)
          else p) := by
      unfold foldCluster; rw [hlook]
    rw [hfold]
    constructor
    · rw [update_map_fst]; exact hkeys
    · intro p hp
      rcases List.mem_map.mp hp with ⟨q, hq, hqp⟩
      by_cases hbeq : q.1 == cluster_key e.topic e.location
      · rw [if_pos hbeq] at hqp
        subst hqp
        have hkq : q.1 = cluster_key e.topic e.location := eq_of_beq hbeq
        have hq2 : ClusterInv seen (cluster_key e.topic e.location) q.2 := by
          rw [← hkq]; exact hinv q hq
        have hupd := updateCluster_inv e hq2 rfl hfresh
        simpa [hkq] using hupd
      · rw [if_neg hbeq] at hqp
        subst hqp
        exact (hinv q hq).mono (fun x hx => List.mem_cons_of_mem _ hx)
  | none =>
    have hfold : foldCluster sid cs e =
        cs ++ [(cluster_key e.topic e.location,
          newCluster sid cs.length (cluster_key e.topic e.location) e)] := by
      unfold foldCluster; rw [hlook]
    rw [hfold]
    constructor
    · rw [List.map_append]
      refine List.Nodup.append hkeys (by simp) ?_
      intro k hk hk'
      simp only [List.map_cons, List.map_nil, List.mem_singleton] at hk'
      subst hk'
      exact lookupCluster_none hlook hk
    · intro p hp
      rcases List.mem_append.mp hp with h | h
      · exact (hinv p h).mono (fun x hx => List.mem_cons_of_mem _ hx)
      · simp only [List.mem_singleton] at h
        subst h
        exact newCluster_inv sid cs.length e (List.mem_cons_self _ _)

/-- A record whose id the stream has already seen is skipped entirely:
processing it leaves the stream state unchanged. -/
theorem process_tweet_of_seen {env : EnrichEnv} {s : StreamState}
    {t : Tweet} (h : t.tweet_id ∈ s.seen_ids) :
    process_tweet env s t = s := by
  unfold process_tweet
  rw [if_pos h]

/-- Processing a fresh record marks its id seen. -/
theorem process_tweet_marks_seen (env : EnrichEnv) (s : StreamState)
    (t : Tweet) : t.tweet_id ∈ (process_tweet env s t).seen_ids := by
  unfold process_tweet
  by_cases h : t.tweet_id ∈ s.seen_ids
  · rw [if_pos h]; exact h
  · rw [if_neg h]
    cases henr : enrich env t with
    | some e => exact List.mem_cons_self _ _
    | none => exact List.mem_cons_self _ _

/-- The seen-id set only grows under processing. -/
theorem seen_subset_process (env : EnrichEnv) (s : StreamState)
    (t : Tweet) : ∀ x ∈ s.seen_ids, x ∈ (process_tweet env s t).seen_ids := by
  intro x hx
  unfold process_tweet
  by_cases h : t.tweet_id ∈ s.seen_ids
  · rw [if_pos h]; exact hx
  · rw [if_neg h]
    cases henr : enrich env t with
    | some e => exact List.mem_cons_of_mem _ hx
    | none => exact List.mem_cons_of_mem _ hx

/-- The seen-id set only grows along an ingestion run. -/
theorem seen_subset_run (env : EnrichEnv) (ts : List Tweet) :
    ∀ {s : StreamState}, ∀ x ∈ s.seen_ids, x ∈ (runStream env s ts).seen_ids := by
  induction ts with
  | nil => intro s x hx; exact hx
  | cons t ts ih =>
    intro s x hx
    exact ih _ (seen_subset_process env s t x hx)

/-- Processing preserves the stream invariant. -/
theorem process_tweet_inv (env : EnrichEnv) {s : StreamState} (t : Tweet)
    (hs : StateInv s) : StateInv (process_tweet env s t) := by
  unfold process_tweet
  by_cases hseen : t.tweet_id ∈ s.seen_ids
  · rw [if_pos hseen]; exact hs
  · rw [if_neg hseen]
    cases henr : enrich env t with
    | none =>
      exact ⟨hs.keys_nodup,
        fun p hp => (hs.cluster_inv p hp).mono
          (fun x hx => List.mem_cons_of_mem _ hx)⟩
    | some e =>
      have hte : e.tweet = t := enrich_tweet_eq henr
      have hfresh : e.tweet.tweet_id ∉ s.seen_ids := by rw [hte]; exact hseen
      have h := foldCluster_inv s.stream_id e hs.keys_nodup hs.cluster_inv hfresh
      exact ⟨h.1, by rw [← hte]; exact h.2⟩

/-- Running preserves the stream invariant. -/
theorem runStream_inv (env : EnrichEnv) (ts : List Tweet) :
    ∀ {s : StreamState}, StateInv s → StateInv (runStream env s ts) := by
  induction ts with
  | nil => intro s hs; exact hs
  | cons t ts ih => intro s hs; exact ih (process_tweet_inv env t hs)

/-- A fresh stream satisfies the invariant. -/
theorem initStream_inv (sid : String) : StateInv (initStream sid) :=
  ⟨List.nodup_nil, fun p hp => absurd hp (List.not_mem_nil p)⟩

/-- The invariant of any cluster reachable by a run from a fresh stream. -/
theorem clusterInv_of_run (env : EnrichEnv) (sid : String) (ts : List Tweet)
    {k : String} {c : Cluster}
    (h : (k, c) ∈ (runStream env (initStream sid) ts).clusters) :
    ClusterInv (runStream env (initStream sid) ts).seen_ids k c :=
  (runStream_inv env ts (initStream_inv sid)).cluster_inv (k, c) h

/-- In an association list with unique keys, the key determines the
stored value. -/
theorem assoc_key_unique : ∀ {cs : List (String × Cluster)},
    (cs.map Prod.fst).Nodup → ∀ {k : String} {c1 c2 : Cluster},
    (k, c1) ∈ cs → (k, c2) ∈ cs → c1 = c2 := by
  intro cs
  induction cs with
  | nil => intro _ k c1 c2 h1 _; exact absurd h1 (List.not_mem_nil _)
  | cons p ps ih =>
    intro hnd k c1 c2 h1 h2
    rw [List.map_cons, List.nodup_cons] at hnd
    rcases List.mem_cons.mp h1 with e1 | m1 <;>
      rcases List.mem_cons.mp h2 with e2 | m2
    · exact congrArg Prod.snd (e1.trans e2.symm)
    · exfalso
      refine hnd.1 ?_
      rw [← e1]
      exact List.mem_map.mpr ⟨(k, c2), m2, rfl⟩
    · exfalso
      refine hnd.1 ?_
      rw [← e2]
      exact List.mem_map.mpr ⟨(k, c1), m1, rfl⟩
    · exact ih hnd.2 m1 m2

/-- Entries of a run's cluster table are determined by their key. -/
theorem cluster_entry_unique (env : EnrichEnv) (sid : String)
    (ts : List Tweet) {k : String} {c1 c2 : Cluster}
    (h1 : (k, c1) ∈ (runStream env (initStream sid) ts).clusters)
    (h2 : (k, c2) ∈ (runStream env (initStream sid) ts).clusters) :
    c1 = c2 :=
  assoc_key_unique (runStream_inv env ts (initStream_inv sid)).keys_nodup h1 h2

/-- The latitude offset of any hash value lies within ±0.02 degrees. -/
theorem offset_lat_bound (h : Nat) : |offset_lat h| ≤ 1 / 50 := by
  unfold offset_lat
  have h1 : (0 : ℚ) ≤ ((h % 2000 : Nat) : ℚ) := Nat.cast_nonneg _
  have h2 : ((h % 2000 : Nat) : ℚ) ≤ 1999 := by
    have : h % 2000 ≤ 1999 := Nat.lt_succ_iff.mp (Nat.mod_lt h (by norm_num))
    exact_mod_cast this
  rw [abs_le]
  constructor
  · rw [le_div_iff₀ (by norm_num : (0:ℚ) < 50000)]; linarith
  · rw [div_le_iff₀ (by norm_num : (0:ℚ) < 50000)]; linarith

/-- The longitude offset of any hash value lies within ±0.02 degrees. -/
theorem offset_lon_bound (h : Nat) : |offset_lon h| ≤ 1 / 50 := by
  unfold offset_lon
  have h1 : (0 : ℚ) ≤ ((h / 2000 % 2000 : Nat) : ℚ) := Nat.cast_nonneg _
  have h2 : ((h / 2000 % 2000 : Nat) : ℚ) ≤ 1999 := by
    have : h / 2000 % 2000 ≤ 1999 :=
      Nat.lt_succ_iff.mp (Nat.mod_lt _ (by norm_num))
    exact_mod_cast this
  rw [abs_le]
  constructor
  · rw [le_div_iff₀ (by norm_num : (0:ℚ) < 50000)]; linarith
  · rw [div_le_iff₀ (by norm_num : (0:ℚ) < 50000)]; linarith

/-- In a cluster list sorted by `memberLE`, the first member has the
maximum popularity. -/
theorem sorted_headI_max {l : List EnrichedTweet}
    (hs : l.Sorted memberLE) {r : EnrichedTweet} (hr : r ∈ l) :
    popE r ≤ popE l.headI := by
  cases l with
  | nil => exact absurd hr (List.not_mem_nil r)
  | cons a t =>
    rcases List.mem_cons.mp hr with h | h
    · subst h; exact le_refl _
    · have := List.rel_of_sorted_cons hs r h
      rcases this with hlt | ⟨heq, _⟩
      · exact le_of_lt hlt
      · exact le_of_eq heq.symm

/-- The first issue time produced by the rate-limiter gate is no earlier
than the gate's next-eligible time. -/
theorem issueTimes_head_ge (minInterval ne : ℚ) (reqs : List ℚ) :
    ∀ x ∈ (issueTimes minInterval ne reqs).head?, ne ≤ x := by
  cases reqs with
  | nil => intro x hx; exact absurd hx (by simp [issueTimes])
  | cons r rs =>
    intro x hx
    simp only [issueTimes, rlAcquire, List.head?_cons, Option.mem_def,
      Option.some.injEq] at hx
    rw [← hx]
    exact le_max_right r ne

/-- Consecutive issue times produced by the gate are at least
`minInterval` apart. -/
theorem issueTimes_chain (minInterval : ℚ) : ∀ (reqs : List ℚ) (ne : ℚ),
    List.Chain' (fun a b => a + minInterval ≤ b)
      (issueTimes minInterval ne reqs) := by
  intro reqs
  induction reqs with
  | nil => intro ne; exact List.chain'_nil
  | cons r rs ih =>
    intro ne
    rw [issueTimes]
    refine List.chain'_cons'.mpr ⟨?_, ih _⟩
    intro y hy
    have := issueTimes_head_ge minInterval
      ((rlAcquire minInterval ne r).2) rs y hy
    calc (rlAcquire minInterval ne r).1 + minInterval
        = (rlAcquire minInterval ne r).2 := rfl
      _ ≤ y := this

/-- Along any chain with gaps of at least `minInterval`, the `j`-th
element is at least `(j - i) * minInterval` after the `i`-th. -/
theorem chain_gap {minInterval : ℚ} {l : List ℚ}
    (hc : List.Chain' (fun a b => a + minInterval ≤ b) l) :
    ∀ (j : Nat) (hj : j < l.length) (i : Nat) (hij : i ≤ j),
      l.get ⟨i, lt_of_le_of_lt hij hj⟩ + ((j - i : Nat) : ℚ) * minInterval
        ≤ l.get ⟨j, hj⟩ := by
  intro j
  induction j with
  | zero =>
    intro hj i hij
    have hi0 : i = 0 := Nat.le_zero.mp hij
    subst hi0
    simp
  | succ j ihj =>
    intro hj i hij
    rcases Nat.lt_succ_iff_lt_or_eq.mp (Nat.lt_succ_of_le hij) with hlt | heq
    · have hj' : j < l.length := Nat.lt_of_succ_lt hj
      have step := List.chain'_iff_get.mp hc j (by omega)
      have prev := ihj hj' i (Nat.lt_succ_iff.mp hlt)
      have hsub : ((j + 1 - i : Nat) : ℚ) = ((j - i : Nat) : ℚ) + 1 := by
        have : j + 1 - i = (j - i) + 1 := by omega
        rw [this]; push_cast; ring
      rw [hsub]
      calc l.get ⟨i, _⟩ + (((j - i : Nat) : ℚ) + 1) * minInterval
          = (l.get ⟨i, _⟩ + ((j - i : Nat) : ℚ) * minInterval) + minInterval := by
            ring
        _ ≤ l.get ⟨j, hj'⟩ + minInterval := by linarith
        _ ≤ l.get ⟨j + 1, hj⟩ := step
    · subst heq
      simp

/-- Running a concatenated source sequence runs the two parts in order. -/
theorem runStream_append (env : EnrichEnv) (s : StreamState)
    (ts1 ts2 : List Tweet) :
    runStream env s (ts1 ++ ts2) = runStream env (runStream env s ts1) ts2 :=
  List.foldl_append _ _ _ _

/-! ### The claims -/

/-- C1: for every Stream and every Record id, the record is enriched and
folded into a Cluster at most once — once an id is in the Stream's
`seenIds` set, any later occurrence of the same id produced by the
Record Source is skipped and causes no mutation of the stream state at
all, wherever in the remaining sequence the replay appears. -/
theorem C1_dedupe_at_most_once (env : EnrichEnv) (s : StreamState)
    (ts1 ts2 ts3 : List Tweet) (t : Tweet)
    (h : t.tweet_id ∈ (runStream env s ts1).seen_ids) :
    runStream env s (ts1 ++ ts2 ++ [t] ++ ts3) =
      runStream env s (ts1 ++ ts2 ++ ts3) := by
  have hseen2 : t.tweet_id ∈ (runStream env (runStream env s ts1) ts2).seen_ids :=
    seen_subset_run env ts2 t.tweet_id h
  have hstep : runStream env (runStream env (runStream env s ts1) ts2) [t]
      = runStream env (runStream env s ts1) ts2 := process_tweet_of_seen hseen2
  calc runStream env s (ts1 ++ ts2 ++ [t] ++ ts3)
      = runStream env (runStream env (runStream env (runStream env s ts1) ts2) [t]) ts3 := by
        rw [runStream_append, runStream_append, runStream_append]
    _ = runStream env (runStream env (runStream env s ts1) ts2) ts3 := by
        rw [hstep]
    _ = runStream env s (ts1 ++ ts2 ++ ts3) := by
        rw [runStream_append, runStream_append]

/-- Witness for C1: the example stream has seen id "a" after the first
record, so replaying that record later changes nothing. -/
theorem C1_dedupe_at_most_once_witness :
    runStream wEnv (initStream "s") ([wT1] ++ [wT2] ++ [wT1] ++ []) =
      runStream wEnv (initStream "s") ([wT1] ++ [wT2] ++ []) :=
  C1_dedupe_at_most_once wEnv (initStream "s") [wT1] [wT2] [] wT1 (by decide)

/-- C2 counterexample: the claim's `normalize` trims surrounding
whitespace, but the code's key only lower-cases — two records whose
spec-normalized keys are equal (locations "mumbai" and " mumbai") are
folded into two distinct clusters. -/
theorem C2_counterexample :
    specClusterKey "blast" "mumbai" = specClusterKey "blast" " mumbai" ∧
    ((runStream c2Env (initStream "s") [wT1, wT2]).clusters.map Prod.fst)
      = ["blast_mumbai", "blast_ mumbai"] := by
  decide

/-- C2 (amended): two enriched records are folded into the same Cluster
iff `lower(topic) + "_" + lower(location)` is equal for both — the key
lower-cases but does not trim.  In particular two records with the same
location but different lower-cased topics land in distinct clusters. -/
theorem C2_same_cluster_iff (env : EnrichEnv) (sid : String)
    (ts : List Tweet) (k1 k2 : String) (c1 c2 : Cluster)
    (r1 r2 : EnrichedTweet)
    (h1 : (k1, c1) ∈ (runStream env (initStream sid) ts).clusters)
    (h2 : (k2, c2) ∈ (runStream env (initStream sid) ts).clusters)
    (m1 : r1 ∈ c1.top_tweets) (m2 : r2 ∈ c2.top_tweets) :
    ((k1, c1) = (k2, c2)) ↔
      cluster_key r1.topic r1.location = cluster_key r2.topic r2.location := by
  have i1 := clusterInv_of_run env sid ts h1
  have i2 := clusterInv_of_run env sid ts h2
  have e1 : cluster_key r1.topic r1.location = k1 := i1.keys_eq r1 m1
  have e2 : cluster_key r2.topic r2.location = k2 := i2.keys_eq r2 m2
  constructor
  · intro he
    have hk : k1 = k2 := congrArg Prod.fst he
    rw [e1, e2, hk]
  · intro he
    have hk : k1 = k2 := by rw [← e1, ← e2, he]
    subst hk
    have hc : c1 = c2 := cluster_entry_unique env sid ts h1 h2
    rw [hc]

/-- Witness for C2 (amended): both example records are members of the one
cluster of the example run, and their code keys agree. -/
theorem C2_same_cluster_iff_witness :
    ((("blast_mumbai" : String), wKC.2) = ("blast_mumbai", wKC.2)) ↔
      cluster_key wE1.topic wE1.location = cluster_key wE2.topic wE2.location :=
  C2_same_cluster_iff wEnv "s" [wT1, wT2] "blast_mumbai" "blast_mumbai"
    wKC.2 wKC.2 wE1 wE2 (by decide) (by decide) (by decide) (by decide)

/-- C3: for every Cluster after any sequence of folds, `count` equals the
number of distinct member record ids folded under that key, and
`popularity` equals the exact sum of `likes + 2*reshares + 0.5*replies`
over the members. -/
theorem C3_count_and_popularity (env : EnrichEnv) (sid : String)
    (ts : List Tweet) (k : String) (c : Cluster)
    (h : (k, c) ∈ (runStream env (initStream sid) ts).clusters) :
    c.tweet_count = (memberIds c).dedup.length ∧
      c.popularity_score =
        (c.top_tweets.map (fun e => compute_popularity e.tweet)).sum := by
  have i := clusterInv_of_run env sid ts h
  constructor
  · rw [i.ids_nodup.dedup, memberIds, List.length_map]
    exact i.count_eq
  · exact i.pop_eq

/-- Witness for C3: the example cluster counts its two distinct members
and sums their popularities (19.5). -/
theorem C3_count_and_popularity_witness :
    wKC.2.tweet_count = (memberIds wKC.2).dedup.length ∧
      wKC.2.popularity_score =
        (wKC.2.top_tweets.map (fun e => compute_popularity e.tweet)).sum :=
  C3_count_and_popularity wEnv "s" [wT1, wT2] wKC.1 wKC.2 (by decide)

/-- C4: for every Cluster after any sequence of folds, the base
coordinates equal the arithmetic mean of the member coordinates — the
state maintained by the online update `base' = base + (coord - base) /
count'` — and the centroid equals that mean plus the key-derived
offset. -/
theorem C4_online_mean_and_offset (env : EnrichEnv) (sid : String)
    (ts : List Tweet) (k : String) (c : Cluster)
    (h : (k, c) ∈ (runStream env (initStream sid) ts).clusters) :
    c.base_lat = (c.top_tweets.map (fun e => e.lat)).sum / (c.tweet_count : ℚ) ∧
    c.base_lon = (c.top_tweets.map (fun e => e.lon)).sum / (c.tweet_count : ℚ) ∧
    c.tweet_count = c.top_tweets.length ∧
    c.centroid_lat = c.base_lat + offset_lat (hashValue k) ∧
    c.centroid_lon = c.base_lon + offset_lon (hashValue k) := by
  have i := clusterInv_of_run env sid ts h
  have hpos : 0 < c.tweet_count := by
    rw [i.count_eq]
    exact List.length_pos.mpr i.nonempty
  have hne : (c.tweet_count : ℚ) ≠ 0 := by
    exact_mod_cast Nat.pos_iff_ne_zero.mp hpos
  refine ⟨?_, ?_, i.count_eq, i.cen_lat, i.cen_lon⟩
  · rw [eq_div_iff hne]; exact i.lat_eq
  · rw [eq_div_iff hne]; exact i.lon_eq

/-- Witness for C4: the example cluster's base is the mean of its two
members' coordinates and its centroid carries the key offset. -/
theorem C4_online_mean_and_offset_witness :
    wKC.2.base_lat = (wKC.2.top_tweets.map (fun e => e.lat)).sum / (wKC.2.tweet_count : ℚ) ∧
    wKC.2.base_lon = (wKC.2.top_tweets.map (fun e => e.lon)).sum / (wKC.2.tweet_count : ℚ) ∧
    wKC.2.tweet_count = wKC.2.top_tweets.length ∧
    wKC.2.centroid_lat = wKC.2.base_lat + offset_lat (hashValue wKC.1) ∧
    wKC.2.centroid_lon = wKC.2.base_lon + offset_lon (hashValue wKC.1) :=
  C4_online_mean_and_offset wEnv "s" [wT1, wT2] wKC.1 wKC.2 (by decide)

/-- C5 counterexample: the member list is not truncated to a bounded
maximum — folding 51 distinct records into one cluster leaves all 51 in
`top_tweets`, exceeding the claimed bound of 50. -/
theorem C5_counterexample :
    ((runStream wEnv (initStream "s")
        ((List.range 51).map mkT)).clusters.headI.2.top_tweets.length = 51) ∧
    ¬ ((runStream wEnv (initStream "s")
        ((List.range 51).map mkT)).clusters.headI.2.top_tweets.length ≤ 50) := by
  set_option maxRecDepth 10000 in decide

/-- C5 (amended): after every fold the member list is sorted by
popularity descending with ties broken by earlier timestamp first, and
the headline is `members[0]`, a member of maximal popularity; but the
list is not truncated — it holds every folded record, so its length
equals `count` and is unbounded. -/
theorem C5_members_sorted_headline (env : EnrichEnv) (sid : String)
    (ts : List Tweet) (k : String) (c : Cluster)
    (h : (k, c) ∈ (runStream env (initStream sid) ts).clusters) :
    c.top_tweets.Sorted memberLE ∧
    c.top_tweets ≠ [] ∧
    c.headline = c.top_tweets.headI ∧
    c.top_tweets.length = c.tweet_count ∧
    ∀ r ∈ c.top_tweets, popE r ≤ popE c.headline := by
  have i := clusterInv_of_run env sid ts h
  refine ⟨i.sorted, i.nonempty, i.headline_eq, i.count_eq.symm, ?_⟩
  intro r hr
  rw [i.headline_eq]
  exact sorted_headI_max i.sorted hr

/-- Witness for C5 (amended): the example cluster is sorted, headed by
the higher-popularity first record, and stores both members. -/
theorem C5_members_sorted_headline_witness :
    wKC.2.top_tweets.Sorted memberLE ∧
    wKC.2.top_tweets ≠ [] ∧
    wKC.2.headline = wKC.2.top_tweets.headI ∧
    wKC.2.top_tweets.length = wKC.2.tweet_count ∧
    ∀ r ∈ wKC.2.top_tweets, popE r ≤ popE wKC.2.headline :=
  C5_members_sorted_headline wEnv "s" [wT1, wT2] wKC.1 wKC.2 (by decide)

/-- C6: the centroid display offset is a pure function of the cluster key
alone — any two clusters stored under the same key, produced by any two
runs under any environments, carry the identical offset, and that offset
lies within ±0.02 degrees (1/50) on each axis. -/
theorem C6_offset_pure_function (env1 env2 : EnrichEnv) (sid1 sid2 : String)
    (ts1 ts2 : List Tweet) (k : String) (c1 c2 : Cluster)
    (h1 : (k, c1) ∈ (runStream env1 (initStream sid1) ts1).clusters)
    (h2 : (k, c2) ∈ (runStream env2 (initStream sid2) ts2).clusters) :
    c1.centroid_lat - c1.base_lat = c2.centroid_lat - c2.base_lat ∧
    c1.centroid_lon - c1.base_lon = c2.centroid_lon - c2.base_lon ∧
    c1.centroid_lat - c1.base_lat = offset_lat (hashValue k) ∧
    c1.centroid_lon - c1.base_lon = offset_lon (hashValue k) ∧
    |offset_lat (hashValue k)| ≤ 1 / 50 ∧
    |offset_lon (hashValue k)| ≤ 1 / 50 := by
  have i1 := clusterInv_of_run env1 sid1 ts1 h1
  have i2 := clusterInv_of_run env2 sid2 ts2 h2
  have a1 : c1.centroid_lat - c1.base_lat = offset_lat (hashValue k) := by
    rw [i1.cen_lat]; ring
  have b1 : c1.centroid_lon - c1.base_lon = offset_lon (hashValue k) := by
    rw [i1.cen_lon]; ring
  have a2 : c2.centroid_lat - c2.base_lat = offset_lat (hashValue k) := by
    rw [i2.cen_lat]; ring
  have b2 : c2.centroid_lon - c2.base_lon = offset_lon (hashValue k) := by
    rw [i2.cen_lon]; ring
  exact ⟨a1.trans a2.symm, b1.trans b2.symm, a1, b1,
    offset_lat_bound _, offset_lon_bound _⟩

/-- Witness for C6: two independent streams fed the example records in
opposite orders store the key "blast_mumbai" with the same offset. -/
theorem C6_offset_pure_function_witness :
    wKC.2.centroid_lat - wKC.2.base_lat = wKC2.2.centroid_lat - wKC2.2.base_lat ∧
    wKC.2.centroid_lon - wKC.2.base_lon = wKC2.2.centroid_lon - wKC2.2.base_lon ∧
    wKC.2.centroid_lat - wKC.2.base_lat = offset_lat (hashValue "blast_mumbai") ∧
    wKC.2.centroid_lon - wKC.2.base_lon = offset_lon (hashValue "blast_mumbai") ∧
    |offset_lat (hashValue "blast_mumbai")| ≤ 1 / 50 ∧
    |offset_lon (hashValue "blast_mumbai")| ≤ 1 / 50 :=
  C6_offset_pure_function wEnv wEnv "s" "s2" [wT1, wT2] [wT2, wT1]
    "blast_mumbai" wKC.2 wKC2.2 (by decide) (by decide)

/-- C7 counterexample: the stream's event queue is created without a
capacity bound — after enqueueing 65 events for the same cluster id,
all 65 are still queued (no drop at capacity 64) and the head of the
queue is the oldest event, not a coalesced newest snapshot. -/
theorem C7_counterexample :
    ¬ ((queuePutAll [] c7Events).length ≤ 64) ∧
    (queuePutAll [] c7Events).head? = some { clusterId := "c", seq := 0 } := by
  decide

/-- C7 (amended): the per-stream event queue is an unbounded FIFO —
enqueueing never drops or coalesces anything, so a subscriber that never
reads retains every event in arrival order, oldest first. -/
theorem C7_queue_unbounded_fifo (q es : List ClusterEvent) :
    queuePutAll q es = q ++ es ∧
    (queuePutAll q es).length = q.length + es.length := by
  have happ : ∀ (es' q' : List ClusterEvent), queuePutAll q' es' = q' ++ es' := by
    intro es'
    induction es' with
    | nil => intro q'; rw [List.append_nil]; rfl
    | cons e es' ih =>
      intro q'
      show queuePutAll (queuePut q' e) es' = q' ++ e :: es'
      rw [ih, queuePut, List.append_assoc]
      rfl
  exact ⟨happ es q, by rw [happ es q, List.length_append]⟩

/-- C8: if any of the three enrichment calls fails for a record, the
record is dropped from clustering but its id is still marked seen, the
cluster state and the running flag are unchanged, and a later duplicate
of the same id is skipped rather than reprocessed. -/
theorem C8_enrichment_failure (env : EnrichEnv) (s : StreamState) (t : Tweet)
    (hfresh : t.tweet_id ∉ s.seen_ids)
    (hfail : env.extractLocation t.text = none ∨
      env.extractTopic t.text = none ∨
      ∀ loc, env.extractLocation t.text = some loc → env.geocode loc = none) :
    (process_tweet env s t).clusters = s.clusters ∧
    (process_tweet env s t).running = s.running ∧
    t.tweet_id ∈ (process_tweet env s t).seen_ids ∧
    process_tweet env (process_tweet env s t) t = process_tweet env s t := by
  have henr : enrich env t = none := by
    unfold enrich
    cases hl : env.extractLocation t.text with
    | none => rfl
    | some loc =>
      rcases hfail with hf | hf | hf
      · exact absurd (hl.symm.trans hf) (by simp)
      · rw [Option.some_bind, hf]; rfl
      · rw [Option.some_bind]
        cases ht : env.extractTopic t.text with
        | none => rfl
        | some top => rw [Option.some_bind, hf loc hl]; rfl
  have hproc : process_tweet env s t =
      { s with seen_ids := t.tweet_id :: s.seen_ids } := by
    unfold process_tweet
    rw [if_neg hfresh, henr]
  rw [hproc]
  refine ⟨rfl, rfl, List.mem_cons_self _ _, ?_⟩
  exact process_tweet_of_seen (List.mem_cons_self _ _)

/-- Witness for C8: a record whose location inference fails is dropped
but marked seen, and its replay is a no-op. -/
theorem C8_enrichment_failure_witness :
    (process_tweet c8Env (initStream "s") wT1).clusters = (initStream "s").clusters ∧
    (process_tweet c8Env (initStream "s") wT1).running = (initStream "s").running ∧
    wT1.tweet_id ∈ (process_tweet c8Env (initStream "s") wT1).seen_ids ∧
    process_tweet c8Env (process_tweet c8Env (initStream "s") wT1) wT1
      = process_tweet c8Env (initStream "s") wT1 :=
  C8_enrichment_failure c8Env (initStream "s") wT1 (by decide) (Or.inl rfl)

/-- C9: the geocode rate limiter serialises all acquisitions through one
gate — along any sequence of requests the `j`-th issued call happens at
least `(j - i) * minInterval` after the `i`-th, so `N` back-to-back
requests span at least `(N-1) * minInterval`. -/
theorem C9_rate_limiter_spacing (minInterval ne : ℚ) (reqs : List ℚ)
    (i j : Nat) (hij : i ≤ j)
    (hj : j < (issueTimes minInterval ne reqs).length) :
    (issueTimes minInterval ne reqs).get ⟨i, lt_of_le_of_lt hij hj⟩
        + ((j - i : Nat) : ℚ) * minInterval
      ≤ (issueTimes minInterval ne reqs).get ⟨j, hj⟩ :=
  chain_gap (issueTimes_chain minInterval reqs ne) j hj i hij

/-- Witness for C9: three immediate requests through a 1.1s gate are
issued at 0, 1.1 and 2.2 seconds — the whole batch spans 2 * 1.1s. -/
theorem C9_rate_limiter_spacing_witness :
    (issueTimes (11/10) 0 [0, 0, 0]).get ⟨0, by decide⟩
        + ((2 - 0 : Nat) : ℚ) * (11/10)
      ≤ (issueTimes (11/10) 0 [0, 0, 0]).get ⟨2, by decide⟩ :=
  C9_rate_limiter_spacing (11/10) 0 [0, 0, 0] 0 2 (by decide) (by decide)

/-- C10: on every subscriber connection the first delivered event is the
"connected" event carrying the stream id, and no cluster update is ever
delivered at position 0 — every update comes after the connected
event. -/
theorem C10_connected_first (sid : String) (q : List ClusterEvent) :
    (sseEvents sid q).head? = some (SSEEvent.connected sid) ∧
    ∀ (i : Nat) (sid' : String) (ev : ClusterEvent),
      (sseEvents sid q).get? i = some (SSEEvent.cluster_update sid' ev) →
      0 < i := by
  refine ⟨rfl, ?_⟩
  intro i sid' ev h
  cases i with
  | zero => simp [sseEvents] at h
  | succ n => exact Nat.succ_pos n

/-- Witness for C10: on a connection with one queued event, the head is
the connected event and the update sits at position 1. -/
theorem C10_connected_first_witness :
    (sseEvents "s" [{ clusterId := "c", seq := 0 }]).head?
        = some (SSEEvent.connected "s") ∧ 0 < 1 :=
  ⟨(C10_connected_first "s" [{ clusterId := "c", seq := 0 }]).1,
   (C10_connected_first "s" [{ clusterId := "c", seq := 0 }]).2 1 "s"
     { clusterId := "c", seq := 0 } (by decide)⟩

end Veritas
